import Mathlib

/-!
Verification of the syllabus-analyzer repository (backend `app.py` and
`scripts/polisci_pdf_downloader.py`) against its natural-language design
specification.  The Python source is shallowly embedded: pure helpers become
Lean functions over `List Char` / `String`, the stateful concurrent
downloader becomes an explicit state-transition system, and each background
stage's writes to the shared job-status table become explicit write traces.
Python machine details modelled: `int(x)` on the nonnegative float
expressions used for progress is floor division (all those expressions are
exact rationals with small denominators), Python `str.split()` splits on
whitespace runs and drops empty tokens, and dictionary membership is keyed
lookup.
-/

namespace SyllabusAnalyzer

/-! ## Python string primitives used by the source -/

/-- The whitespace characters Python's `str.split()` splits on (ASCII range,
which is the only range produced by the downloader's inputs). -/
def pyWhitespaceChars : List Char := [' ', '\t', '\n', '\r', '\x0b', '\x0c']

/-- Whether a character is Python whitespace. -/
def isPyWhitespace (c : Char) : Bool := c ∈ pyWhitespaceChars

/-- Python's substring test `sub in s`, on character lists. -/
def listContainsSub (l sub : List Char) : Bool :=
  match l with
  | [] => sub == []
  | _ :: rest => sub.isPrefixOf l || listContainsSub rest sub

/-- Python's substring test `sub in s` on strings. -/
def strContainsSub (s sub : String) : Bool :=
  listContainsSub s.toList sub.toList

/-- Python `str.lower()` (characterwise, sufficient for the ASCII data the
source manipulates). -/
def pyLower (s : String) : String := String.mk (s.toList.map Char.toLower)

/-- Python `str.startswith(p)`. -/
def pyStartsWith (s p : String) : Bool := p.toList.isPrefixOf s.toList

/-- Python `str.endswith(p)`. -/
def pyEndsWith (s p : String) : Bool := p.toList.isSuffixOf s.toList

/-- Python `len(s)`. -/
def pyLen (s : String) : ℕ := s.toList.length

/-- Python `str.split()`: accumulate the current token (reversed) while
scanning; whitespace runs separate tokens; empty tokens are dropped, so the
result is exactly the maximal whitespace-free nonempty runs. -/
def pySplitAux : List Char → List Char → List (List Char)
  | [], acc => if acc = [] then [] else [acc.reverse]
  | c :: rest, acc =>
    if isPyWhitespace c then
      if acc = [] then pySplitAux rest [] else acc.reverse :: pySplitAux rest []
    else
      pySplitAux rest (c :: acc)

/-- Python `str.split()` on a character list. -/
def pySplit (l : List Char) : List (List Char) := pySplitAux l []

/-- Python `' '.join(tokens)` on character lists. -/
def pyJoinSpace : List (List Char) → List Char
  | [] => []
  | [t] => t
  | t :: ts => t ++ ' ' :: pyJoinSpace ts

/-- Python `'; '.join(strings)`. -/
def joinSemi : List String → String
  | [] => ""
  | [a] => a
  | a :: rest => a ++ "; " ++ joinSemi rest

end SyllabusAnalyzer

namespace PolisciDownloader

open SyllabusAnalyzer

/-! ## `scripts/polisci_pdf_downloader.py` — `UFLPoliticalScienceDownloader` -/

/-- The characters removed by `sanitize_filename`'s regex `[<>:"/\\|?*]`. -/
def invalidFilenameChars : List Char := ['<', '>', ':', '"', '/', '\\', '|', '?', '*']

/-- `sanitize_filename` (lines 147-153): replace each invalid character with
`'_'`, then `' '.join(filename.split())[:200]`. -/
def sanitize_filename (filename : String) : String :=
  let replaced := filename.toList.map (fun c => if c ∈ invalidFilenameChars then '_' else c)
  String.mk ((pyJoinSpace (pySplit replaced)).take 200)

/-- `os.path.splitext` restricted to plain filenames (no directory
separators, which the downloader never passes): split at the last dot that
has at least one non-dot character somewhere before it in the name;
otherwise the extension is empty. -/
def splitext (f : String) : String × String :=
  let l := f.toList
  let idxs := (List.range l.length).filter (fun i =>
    l.getD i ' ' = '.' ∧ ∃ j < i, l.getD j ' ' ≠ '.')
  match idxs.max? with
  | some i => (String.mk (l.take i), String.mk (l.drop i))
  | none => (f, "")

/-- The candidate filenames tried by `download_pdf`'s collision loop
(lines 181-186): candidate 0 is the base filename; candidate `k+1` is
`f"{name}_{k+1}{ext}"` where `(name, ext) = os.path.splitext(base)`. -/
def candName (base : String) : ℕ → String
  | 0 => base
  | k + 1 =>
    let p := splitext base
    p.1 ++ "_" ++ Nat.repr (k + 1) ++ p.2

/-- The `while filename in self.downloaded_files` loop of `download_pdf`,
with explicit fuel (the Python loop terminates because the registry is
finite and the candidates are pairwise distinct strings). -/
def chooseNameFrom (base : String) (claimed : List String) : ℕ → ℕ → Option String
  | 0, _ => none
  | fuel + 1, k =>
    let f := candName base k
    if f ∈ claimed then chooseNameFrom base claimed fuel (k + 1) else some f

/-- The unique filename chosen against the `downloaded_files` registry. -/
def chooseName (base : String) (claimed : List String) (fuel : ℕ) : Option String :=
  chooseNameFrom base claimed fuel 0

/-- Base-filename derivation of `download_pdf` (lines 164-177).
`url_filename` stands for `os.path.basename(urlparse(url).path)`, a leaf
computation of the standard library. -/
def derive_base_filename (title url_filename : String) : String :=
  let base :=
    if pyLen title > 10 ∧ ¬ pyStartsWith (pyLower title) "http" then
      let b := sanitize_filename title
      if ¬ pyEndsWith (pyLower b) ".pdf" then b ++ ".pdf" else b
    else
      if pyEndsWith url_filename ".pdf" then url_filename else "polisci_syllabus.pdf"
  if ¬ pyStartsWith (pyLower base) "polisci_" then "polisci_" ++ base else base

/-! ### Sequential model of one `download_pdf` call (lines 155-226)

State shared between calls: the `downloaded_files` registry, the set of
files present in the download folder, and a counter of network transfers
performed (`session.get(url, ...)` at line 201).  The network outcome of
the transfer, when one happens, is an input. -/

/-- Shared downloader state visible to `download_pdf`. -/
structure DLState where
  downloaded_files : List String
  disk : List String
  transfers : ℕ
  deriving Repr, DecidableEq

/-- Outcome of `session.get` on the PDF URL: an exception (connection error
or `raise_for_status`), or a completed response with its declared
`content-type` header and body length. -/
inductive NetResult
  | err
  | ok (content_type : String) (body_len : ℕ)
  deriving Repr, DecidableEq

/-- One sequential `download_pdf` call.  `fuel` bounds the collision loop;
`none` from `chooseName` (never hit with sufficient fuel) is modelled as
the call not completing, returning the state unchanged with failure. -/
def download_pdf (st : DLState) (title url_filename : String) (fuel : ℕ)
    (net : NetResult) : DLState × Bool :=
  let base := derive_base_filename title url_filename
  match chooseName base st.downloaded_files fuel with
  | none => (st, false)
  | some filename =>
    if filename ∈ st.disk then
      -- lines 191-194: skip if the file already exists; still registered, success
      ({ st with downloaded_files := filename :: st.downloaded_files }, true)
    else
      -- line 197: mark as being downloaded, then line 201: the network transfer
      let st1 : DLState :=
        { st with downloaded_files := filename :: st.downloaded_files,
                  transfers := st.transfers + 1 }
      match net with
      | .err =>
        -- lines 220-226: exception path discards the claimed name
        ({ st1 with downloaded_files := st1.downloaded_files.erase filename }, false)
      | .ok content_type body_len =>
        -- lines 204-210: validation of the completed transfer
        if ¬ strContainsSub (pyLower content_type) "application/pdf" ∧ body_len < 1024 then
          ({ st1 with downloaded_files := st1.downloaded_files.erase filename }, false)
        else
          -- lines 212-218: write the file
          ({ st1 with disk := filename :: st1.disk }, true)

/-! ### Interleaved model of concurrent `download_pdf` calls (claim C1)

Each worker call is a little automaton.  The claim-and-check sequence
(lines 179-197) runs under `self.lock`, so it is one atomic step; the
network transfer and the subsequent commit or release are separate steps
that may interleave with other calls. -/

/-- Phase of one `download_pdf` call. -/
inductive CallPhase
  | idle
  | claimed (filename : String)
  | doneOk (filename : String)
  | doneFail
  deriving Repr, DecidableEq

/-- Global state of an acquisition run: the shared registry, the files on
disk, and each call's phase (`ι` indexes the concurrent calls). -/
structure SysState (ι : Type) where
  registry : List String
  disk : List String
  calls : ι → CallPhase

/-- Interleaving semantics of concurrent `download_pdf` calls.
* `claim`: atomically (under `self.lock`) choose a fresh filename against
  the registry and register it; if the destination already exists on disk
  the call returns success immediately (lines 191-194), otherwise it holds
  the claim and proceeds to the transfer.
* `commit`: the transfer completed and validated; the file is written
  (lines 212-218) and the call returns success.
* `release`: the transfer failed or validation rejected it; the claimed
  name is discarded from the registry (lines 206-210, 220-226).
* `failEarly`: an exception before any name was chosen (lines 163-177). -/
inductive Step {ι : Type} [DecidableEq ι] : SysState ι → SysState ι → Prop
  | claim (s : SysState ι) (i : ι) (base f : String) (fuel : ℕ)
      (hidle : s.calls i = .idle)
      (hchoose : chooseName base s.registry fuel = some f) :
      Step s { registry := f :: s.registry,
               disk := s.disk,
               calls := Function.update s.calls i
                 (if f ∈ s.disk then .doneOk f else .claimed f) }
  | commit (s : SysState ι) (i : ι) (f : String)
      (hcl : s.calls i = .claimed f) :
      Step s { registry := s.registry,
               disk := f :: s.disk,
               calls := Function.update s.calls i (.doneOk f) }
  | release (s : SysState ι) (i : ι) (f : String)
      (hcl : s.calls i = .claimed f) :
      Step s { registry := s.registry.erase f,
               disk := s.disk,
               calls := Function.update s.calls i .doneFail }
  | failEarly (s : SysState ι) (i : ι)
      (hidle : s.calls i = .idle) :
      Step s { registry := s.registry,
               disk := s.disk,
               calls := Function.update s.calls i .doneFail }

/-- Initial state of one acquisition run: empty registry (a fresh
`UFLPoliticalScienceDownloader` has `downloaded_files = set()`), any
pre-existing files on disk, all calls idle. -/
def initState (ι : Type) (disk0 : List String) : SysState ι :=
  { registry := [], disk := disk0, calls := fun _ => .idle }

/-- Reachability under the interleaving semantics. -/
def Reach {ι : Type} [DecidableEq ι] (s t : SysState ι) : Prop :=
  Relation.ReflTransGen Step s t

/-- The filename a call is holding or has committed, if any. -/
def heldName : CallPhase → Option String
  | .claimed f => some f
  | .doneOk f => some f
  | _ => none

/-- The registry invariant of an acquisition run: every held or committed
filename is registered, and no two distinct calls hold or have committed
the same filename. -/
def RegistryInv {ι : Type} (s : SysState ι) : Prop :=
  (∀ (i : ι) (f : String), heldName (s.calls i) = some f → f ∈ s.registry) ∧
  (∀ (i j : ι) (f g : String), i ≠ j →
    heldName (s.calls i) = some f → heldName (s.calls j) = some g → f ≠ g)

end PolisciDownloader

namespace Backend

open SyllabusAnalyzer

/-! ## `backend/app.py` -/

/-- The mutable part of a `jobs_status` entry that the claims are about. -/
structure JobEntry where
  status : String
  progress : ℕ
  message : String
  deriving Repr, DecidableEq

/-! ### Reference capping (claim C5)

`get_pdf_links_from_page` lines 132-135 and `discover_and_download_pdfs`
lines 269-298. -/

/-- A discovered document reference `{url, title}`. -/
structure PdfRef where
  url : String
  title : String
  deriving Repr, DecidableEq

/-- Lines 132-135: `if len(pdf_links) > self.max_downloads: pdf_links =
pdf_links[:self.max_downloads]`. -/
def limit_pdf_links (links : List PdfRef) (max_downloads : ℕ) : List PdfRef :=
  if links.length > max_downloads then links.take max_downloads else links

/-- The job's department selector. -/
inductive Department
  | arts
  | polisci
  deriving Repr, DecidableEq

/-- Lines 269-277: the backend's own cap on the discovered references.
For `polisci` the list was already limited to 5 inside
`get_pdf_links_from_page` (the downloader is constructed with
`max_downloads=5`); for `arts` the backend takes `all_pdf_links[:5]`. -/
def limited_pdf_links (dept : Department) (all_pdf_links : List PdfRef) : List PdfRef :=
  match dept with
  | .polisci => all_pdf_links
  | .arts => all_pdf_links.take 5

/-- Lines 283-311: the download loop calls `downloader.download_pdf(pdf_info)`
exactly once per element of `limited_pdf_links`, accumulating the successful
count.  Returns the list of references a transfer attempt was made for (in
order) and the success count. -/
def downloadLoop (links : List PdfRef) (outcome : PdfRef → Bool) :
    List PdfRef × ℕ :=
  links.foldl
    (fun acc r => (acc.1 ++ [r], if outcome r then acc.2 + 1 else acc.2))
    ([], 0)

/-! ### Stage progress traces (claim C2)

Each background stage writes `jobs_status[job_id]["progress"]` a number of
times.  `int(x)` on the (exact-in-rationals) float expressions involved is
the floor, written below with natural division. -/

/-- Progress writes of the per-file smooth-animation block of
`discover_and_download_pdfs` (lines 283-305) for file `i` of `n`:
`int(start)`, `int(start + (end-start)/3)`, then `int(end_progress)` where
`start = 50 + 40*i/n` and `end = 50 + 40*(i+1)/n`. -/
def acqFileWrites (n i : ℕ) : List ℕ :=
  [50 + 40 * i / n, 50 + (120 * i + 40) / (3 * n), 50 + 40 * (i + 1) / n]

/-- The concatenated per-file progress writes of the download loop. -/
def acqFlat (n : ℕ) : List ℕ := (List.range n).flatMap (acqFileWrites n)

/-- Progress writes of a successful `discover_and_download_pdfs` run for the
`polisci` department downloading `n` files: 10 (line 216), 50 (line 243),
50 (line 267), 50 (line 273), the per-file writes, then 100 (line 315). -/
def acqPolisciWrites (n : ℕ) : List ℕ :=
  10 :: 50 :: 50 :: 50 :: (acqFlat n ++ [100])

/-- The per-page scan writes of the `arts` path (lines 257-258). -/
def artsScan (p : ℕ) : List ℕ := (List.range p).map (fun i => 20 + 30 * (i + 1) / p)

/-- Progress writes of a successful `arts` run scanning `p` semester pages
(`p ≥ 1`: an empty list is replaced by `[url]`) and downloading `n` files:
10, 20 (line 252), `int(20 + 30*(i+1)/p)` per page (lines 257-258),
50 (line 267), 50 (line 277), the per-file writes, then 100. -/
def acqArtsWrites (p n : ℕ) : List ℕ :=
  10 :: 20 :: (artsScan p ++ 50 :: 50 :: (acqFlat n ++ [100]))

/-- Per-document outcome inside `extract_metadata_background`'s loop
(lines 392-466): the text extraction returned empty (silent skip, line
404), the document was processed (any of the AI / heuristic / sentinel
paths — they write the same progress values), or the per-document `except`
fired before / after the AI-progress write at line 418. -/
inductive ExtractOutcome
  | skip
  | processed
  | errEarly
  | errLate
  deriving Repr, DecidableEq

/-- Progress writes for document `i` of `n` in
`extract_metadata_background`: `int((i/n)*90)` (line 395), then — unless
skipped or failed early — `int((i/n)*90 + 5)` (line 417), then
`int(((i+1)/n)*90)` (lines 454, 462). -/
def extractFileWrites (n i : ℕ) : ExtractOutcome → List ℕ
  | .skip => [90 * i / n]
  | .processed => [90 * i / n, 90 * i / n + 5, 90 * (i + 1) / n]
  | .errEarly => [90 * i / n, 90 * (i + 1) / n]
  | .errLate => [90 * i / n, 90 * i / n + 5, 90 * (i + 1) / n]

/-- The concatenated per-document progress writes of the extraction loop. -/
def extractFlat (outcomes : List ExtractOutcome) : List ℕ :=
  ((List.range outcomes.length).zip outcomes).flatMap
    (fun pi => extractFileWrites outcomes.length pi.1 pi.2)

/-- Progress writes of an `extract_metadata_background` run over `n = |outcomes|`
documents that reaches completion: the request handler's reset to 0
(line 367), the per-document writes, then 100 (line 474). -/
def extractWrites (outcomes : List ExtractOutcome) : List ℕ :=
  0 :: (extractFlat outcomes ++ [100])

/-- The per-record scan writes of `check_primo_background` (line 563). -/
def primoScan (n : ℕ) : List ℕ := (List.range n).map (fun i => 90 * i / n)

/-- Progress writes of a completing `check_primo_background` run over `n`
records: 0 (line 553), `int((i/n)*90)` per record (line 563), 95
(line 602), then 100 (line 612). -/
def primoWrites (n : ℕ) : List ℕ :=
  0 :: (primoScan n ++ [95, 100])

/-- A stage invocation, with the parameters its progress trace depends on. -/
inductive StageRun
  | acqPolisci (n : ℕ)
  | acqArts (p n : ℕ)
  | extraction (outcomes : List ExtractOutcome)
  | crossref (n : ℕ)

/-- The successive progress values a completing stage invocation writes. -/
def progressWrites : StageRun → List ℕ
  | .acqPolisci n => acqPolisciWrites n
  | .acqArts p n => acqArtsWrites p n
  | .extraction outcomes => extractWrites outcomes
  | .crossref n => primoWrites n

/-! ### Error transitions of each stage -/

/-- `discover_and_download_pdfs` lines 321-324: on any exception the status
becomes `error`, the message reports it, and progress is reset to 0. -/
def acquisitionOnError (e : JobEntry) (msg : String) : JobEntry :=
  { e with status := "error", message := "Error: " ++ msg, progress := 0 }

/-- `extract_metadata_background` lines 479-481: on an exception escaping
the loop the status becomes `error` and the message reports it; the
progress field is not written. -/
def extractionOnError (e : JobEntry) (msg : String) : JobEntry :=
  { e with status := "error", message := "Error: " ++ msg }

/-- `check_primo_background` lines 616-625: every `except` branch sets the
status to `error` with a message; none writes the progress field. -/
def crossrefOnError (e : JobEntry) (msg : String) : JobEntry :=
  { e with status := "error", message := msg }

/-! ### Cross-reference request guard (claim C3) -/

/-- The per-record message written by `check_primo_background` at line 565
while record `i+1` of `n` is being looked up. -/
def primoLoopMessage (filename : String) (i n : ℕ) : String :=
  "Checking resources for " ++ filename ++ " (" ++ Nat.repr (i + 1) ++ "/" ++
    Nat.repr n ++ ")"

/-- Lines 508-512 of `check_primo_resources`: the request is answered
`already_running` iff the current status is `"processing"` and the current
message contains `"Primo"` or its lowercasing contains `"library"`. -/
def primo_guard_rejects (status message : String) : Bool :=
  status == "processing" &&
    (strContainsSub message "Primo" || strContainsSub (pyLower message) "library")

/-- Synchronous responses of `check_primo_resources`. -/
inductive PrimoResponse
  | notFound
  | alreadyRunning
  | badResults
  | started
  deriving Repr, DecidableEq

/-- `check_primo_resources` (lines 501-532): 404 when the job is unknown;
the keyword guard; 404 / 400 when the metadata-results artifact is missing
or invalid; otherwise the background task is scheduled.  Returns the
response and whether `check_primo_background` was scheduled. -/
def check_primo_resources (jobPresent : Bool) (status message : String)
    (resultsFileExists resultsValidNonEmpty : Bool) : PrimoResponse × Bool :=
  if ¬ jobPresent then (.notFound, false)
  else if primo_guard_rejects status message then (.alreadyRunning, false)
  else if ¬ resultsFileExists then (.notFound, false)
  else if ¬ resultsValidNonEmpty then (.badResults, false)
  else (.started, true)

/-! ### Extraction request guard (claim C8) -/

/-- Synchronous responses of `extract_metadata`. -/
inductive ExtractResponse
  | notFound
  | started
  deriving Repr, DecidableEq

/-- `extract_metadata` (lines 355-374): 404 when the job id is unknown or
the job's download folder does not exist; otherwise the entry is set to
`processing` / 0 / "Starting metadata extraction..." and the background
task is scheduled.  Returns the response, the job entry afterwards, and
whether `extract_metadata_background` was scheduled.  The number of
acquired documents is not consulted here. -/
def extract_metadata_handler (jobPresent folderExists : Bool) (e : JobEntry) :
    ExtractResponse × JobEntry × Bool :=
  if ¬ jobPresent then (.notFound, e, false)
  else if ¬ folderExists then (.notFound, e, false)
  else (.started,
        { status := "processing", progress := 0,
          message := "Starting metadata extraction..." },
        true)

/-- `extract_metadata_background` lines 383-388: the first thing the
scheduled task does is glob the folder; with no PDF files it flips the
entry to `error` and returns, otherwise it proceeds. -/
def extraction_precheck (numPdfs : ℕ) (e : JobEntry) : JobEntry × Bool :=
  if numPdfs = 0 then
    ({ e with status := "error", message := "No PDF files found" }, false)
  else (e, true)

/-! ### Extraction fallback chain and field filtering (claim C4) -/

/-- A metadata value: a plain string or a list (the `reading_materials`
field holds a list). -/
inductive MVal
  | str (s : String)
  | items (l : List String)
  deriving Repr, DecidableEq

/-- A metadata dictionary, keys unique (Python `dict`). -/
def Metadata := List (String × MVal)

/-- Outcome of one extractor call: a returned dictionary or a raised
exception. -/
inductive ExtractionAttempt
  | ok (m : Metadata)
  | raises

/-- Lines 440-446: `filtered_metadata` keeps exactly the selected fields,
substituting `"Unknown"` for a field absent from the extractor output. -/
def filter_metadata (metadata : Metadata) (selected_fields : List String) : Metadata :=
  selected_fields.map (fun field =>
    match metadata.lookup field with
    | some v => (field, v)
    | none => (field, .str "Unknown"))

/-- Lines 421-446: try the AI extractor; on exception try the heuristic
extractor; on a second exception synthesize `{field: "Unknown"}` over the
selected fields; finally filter to the selected fields. -/
def extract_document_metadata (llm heur : ExtractionAttempt)
    (selected_fields : List String) : Metadata :=
  let metadata : Metadata :=
    match llm with
    | .ok m => m
    | .raises =>
      match heur with
      | .ok m => m
      | .raises => selected_fields.map (fun field => (field, MVal.str "Unknown"))
  filter_metadata metadata selected_fields

/-! ### CSV reading-materials rendering (claim C9) -/

/-- A reading-material dictionary as consumed by
`generate_csv_from_results` (lines 741-755); `none` models an absent key. -/
structure Material where
  title : Option String
  creator : Option String
  author : Option String
  requirement : Option String
  mtype : Option String
  murl : Option String
  deriving Repr, DecidableEq

/-- An element of a record's `reading_materials` list: a dictionary or any
other (stringified) value. -/
inductive RMItem
  | dict (m : Material)
  | raw (s : String)
  deriving Repr, DecidableEq

/-- Python truthiness test used on optional strings (`None` and `''` are
falsy). -/
def optTruthy (o : Option String) : Bool :=
  match o with
  | none => false
  | some s => ¬ (s == "")

/-- `item.get('creator') or item.get('author', '')`. -/
def creatorOrAuthor (m : Material) : String :=
  match m.creator with
  | some s => if s == "" then m.author.getD "" else s
  | none => m.author.getD ""

/-- Lines 743-754: the rendered string of one dictionary reading material. -/
def material_str (m : Material) : String :=
  let title := m.title.getD "Unknown Title"
  let author := creatorOrAuthor m
  let material_type := m.mtype.getD "book"
  let u := m.murl.getD ""
  let s := title
  let s := if ¬ (author == "") then s ++ " by " ++ author else s
  let s := s ++ " (" ++ material_type ++ ")"
  if optTruthy (some u) ∧ pyLower u ∉ (["unknown", "none", ""] : List String) then
    s ++ " [URL: " ++ u ++ "]"
  else s

/-- `item.get('requirement', 'optional')`. -/
def requirementOf (m : Material) : String := m.requirement.getD "optional"

/-- The reading-materials columns of one CSV row. -/
structure ReadingCols where
  reading_materials_count : ℕ
  required_materials : String
  optional_materials : String
  reading_materials_list : String
  deriving Repr, DecidableEq

/-- Lines 735-774: bucket each material into required / optional, render,
and join each bucket with `"; "`; non-dictionary items are stringified into
the optional bucket.  The count is the length of the materials list. -/
def readingMaterialCols (reading_materials : List RMItem) : ReadingCols :=
  if reading_materials = [] then
    { reading_materials_count := 0, required_materials := "",
      optional_materials := "", reading_materials_list := "" }
  else
    let buckets := reading_materials.foldl
      (fun (acc : List String × List String × List String) item =>
        match item with
        | .dict m =>
          let s := material_str m
          if requirementOf m == "required" then
            (acc.1 ++ [s], acc.2.1, acc.2.2 ++ [s])
          else
            (acc.1, acc.2.1 ++ [s], acc.2.2 ++ [s])
        | .raw s => (acc.1, acc.2.1 ++ [s], acc.2.2 ++ [s]))
      ([], [], [])
    { reading_materials_count := reading_materials.length,
      required_materials := joinSemi buckets.1,
      optional_materials := joinSemi buckets.2.1,
      reading_materials_list := joinSemi buckets.2.2 }

end Backend

/-! # Theorems -/

namespace PolisciDownloader

/-- A filename returned by the collision loop is never one already in the
`downloaded_files` registry. -/
theorem chooseNameFrom_not_mem {base : String} {claimed : List String} :
    ∀ {fuel k : ℕ} {f : String},
      chooseNameFrom base claimed fuel k = some f → f ∉ claimed := by
  intro fuel
  induction fuel with
  | zero => intro k f h; simp [chooseNameFrom] at h
  | succ m ih =>
    intro k f h
    rw [chooseNameFrom] at h
    by_cases hc : candName base k ∈ claimed
    · rw [if_pos hc] at h
      exact ih h
    · rw [if_neg hc] at h
      obtain rfl : candName base k = f := by exact Option.some.inj h
      exact hc

/-- The chosen filename is fresh with respect to the registry. -/
theorem chooseName_not_mem {base f : String} {claimed : List String} {fuel : ℕ}
    (h : chooseName base claimed fuel = some f) : f ∉ claimed :=
  chooseNameFrom_not_mem h

end PolisciDownloader

namespace Backend

open SyllabusAnalyzer

/-- The attempts list accumulated by the download loop is the input list. -/
theorem downloadLoop_attempts_aux (outcome : PdfRef → Bool) :
    ∀ (links : List PdfRef) (acc : List PdfRef) (s : ℕ),
      (links.foldl
        (fun acc r => (acc.1 ++ [r], if outcome r then acc.2 + 1 else acc.2))
        (acc, s)).1 = acc ++ links := by
  intro links
  induction links with
  | nil => intro acc s; simp
  | cons r rest ih =>
    intro acc s
    simp only [List.foldl_cons]
    rw [ih]
    simp

/-- `downloadLoop` makes exactly one `download_pdf` call per element of its
input list, in order. -/
theorem downloadLoop_attempts (links : List PdfRef) (outcome : PdfRef → Bool) :
    (downloadLoop links outcome).1 = links := by
  unfold downloadLoop
  simpa using downloadLoop_attempts_aux outcome links [] 0

/-- The downloader-side cap is a `take`. -/
theorem limit_pdf_links_eq_take (links : List PdfRef) (c : ℕ) :
    limit_pdf_links links c = links.take c := by
  unfold limit_pdf_links
  split
  · rfl
  · next h => exact (List.take_of_length_le (by omega)).symm

/-- C5: for every acquisition run over `N` discovered references with cap
`C = 5` (both departments), the reference list handed to the download loop
is exactly the first 5 discovered references — truncated before any
download starts — the loop makes exactly one `download_pdf` call per
retained reference, and the number of transfer attempts is
`min N 5 ≤ min N C`. -/
theorem C5_capped_attempts (dept : Department) (links : List PdfRef)
    (outcome : PdfRef → Bool) :
    (limited_pdf_links dept
        (match dept with
         | .polisci => limit_pdf_links links 5
         | .arts => links) = links.take 5) ∧
    (downloadLoop (links.take 5) outcome).1 = links.take 5 ∧
    (links.take 5).length = min links.length 5 := by
  refine ⟨?_, downloadLoop_attempts _ _, by simp [Nat.min_comm]⟩
  cases dept with
  | polisci => simpa [limited_pdf_links] using limit_pdf_links_eq_take links 5
  | arts => simp [limited_pdf_links]

end Backend

namespace PolisciDownloader

/-- C6: idempotence of acquisition with respect to already-present files.
If the destination path derived for the reference (its chosen unique
filename) already exists on disk at claim time, `download_pdf` returns
success, writes nothing to disk, performs no network transfer (the
transfer counter is unchanged and the network outcome `net` does not
appear on the right-hand side), and only registers the name — so a re-run
of acquisition over an already-populated destination counts the document
as successfully downloaded without re-fetching it. -/
theorem C6_skip_existing (st : DLState) (title url_filename : String)
    (fuel : ℕ) (net : NetResult) (f : String)
    (hchoose : chooseName (derive_base_filename title url_filename)
        st.downloaded_files fuel = some f)
    (hdisk : f ∈ st.disk) :
    download_pdf st title url_filename fuel net =
      ({ st with downloaded_files := f :: st.downloaded_files }, true) := by
  unfold download_pdf
  simp only []
  rw [show (let base := derive_base_filename title url_filename;
      chooseName base st.downloaded_files fuel) = some f from hchoose]
  simp [hdisk]

/-- C6 witness: a concrete run where `polisci_Introduction to Politics.pdf`
is already on disk; `download_pdf` succeeds without touching disk or the
transfer counter even though the network would have failed. -/
theorem C6_skip_existing_witness :
    download_pdf
        ⟨[], ["polisci_Introduction to Politics.pdf"], 0⟩
        "Introduction to Politics" "intro.pdf" 1 .err =
      (⟨["polisci_Introduction to Politics.pdf"],
        ["polisci_Introduction to Politics.pdf"], 0⟩, true) :=
  C6_skip_existing ⟨[], ["polisci_Introduction to Politics.pdf"], 0⟩
    "Introduction to Politics" "intro.pdf" 1 .err
    "polisci_Introduction to Politics.pdf" (by decide) (by decide)

end PolisciDownloader

namespace PolisciDownloader

open SyllabusAnalyzer

/-- C7: for a completed transfer (the chosen filename was not already on
disk, and `session.get` returned a response), `download_pdf` fails on
content-validation grounds iff the lowercased declared content type does
not contain `"application/pdf"` AND the body is shorter than 1024 bytes;
in exactly that case nothing is written to disk, the claimed filename is
released from the registry (the registry returns to its pre-call value),
and the call returns failure; otherwise the file is written and the call
succeeds. -/
theorem C7_content_validation (st : DLState) (title url_filename : String)
    (fuel : ℕ) (ct : String) (blen : ℕ) (f : String)
    (hchoose : chooseName (derive_base_filename title url_filename)
        st.downloaded_files fuel = some f)
    (hdisk : f ∉ st.disk) :
    ((download_pdf st title url_filename fuel (.ok ct blen)).2 = false ↔
      (strContainsSub (pyLower ct) "application/pdf" = false ∧ blen < 1024)) ∧
    (strContainsSub (pyLower ct) "application/pdf" = false → blen < 1024 →
      download_pdf st title url_filename fuel (.ok ct blen) =
        ({ st with transfers := st.transfers + 1 }, false)) ∧
    (¬ (strContainsSub (pyLower ct) "application/pdf" = false ∧ blen < 1024) →
      download_pdf st title url_filename fuel (.ok ct blen) =
        ({ st with downloaded_files := f :: st.downloaded_files,
                   disk := f :: st.disk,
                   transfers := st.transfers + 1 }, true)) := by
  have hfresh : f ∉ st.downloaded_files := chooseName_not_mem hchoose
  have hval : download_pdf st title url_filename fuel (.ok ct blen) =
      if ¬ strContainsSub (pyLower ct) "application/pdf" ∧ blen < 1024 then
        ({ st with transfers := st.transfers + 1 }, false)
      else
        ({ st with downloaded_files := f :: st.downloaded_files,
                   disk := f :: st.disk,
                   transfers := st.transfers + 1 }, true) := by
    unfold download_pdf
    simp only []
    rw [show (let base := derive_base_filename title url_filename;
        chooseName base st.downloaded_files fuel) = some f from hchoose]
    simp only [if_neg hdisk]
    split
    · simp [List.erase_cons_head]
    · rfl
  refine ⟨?_, ?_, ?_⟩
  · rw [hval]
    split
    · next h => simp_all
    · next h => simp_all
  · intro h1 h2
    rw [hval, if_pos (by simp [h1, h2])]
  · intro h
    rw [hval, if_neg (by simpa using h)]

/-- C7 witness: a 100-byte `text/html` response is rejected — the registry
is restored, nothing is on disk, and the call reports failure. -/
theorem C7_content_validation_witness :
    download_pdf ⟨[], [], 0⟩ "Introduction to Politics" "intro.pdf" 1
        (.ok "text/HTML" 100) =
      (⟨[], [], 1⟩, false) :=
  ((C7_content_validation ⟨[], [], 0⟩ "Introduction to Politics" "intro.pdf" 1
      "text/HTML" 100 "polisci_Introduction to Politics.pdf"
      (by decide) (by decide)).2.1 (by decide) (by decide))

end PolisciDownloader

namespace Backend

/-- Looking a key up in a constant-valued association list can only return
the constant. -/
theorem lookup_const_unknown (l : List String) (k : String) (v : MVal)
    (h : (l.map (fun f => (f, MVal.str "Unknown"))).lookup k = some v) :
    v = MVal.str "Unknown" := by
  induction l with
  | nil => simp [List.lookup] at h
  | cons a rest ih =>
    simp only [List.map_cons, List.lookup] at h
    cases hk : k == a with
    | true => rw [hk] at h; exact (Option.some.inj h).symm
    | false => rw [hk] at h; exact ih h

/-- C4: the record produced for a document has exactly the caller-selected
fields as its keys, in order.  When an extractor succeeds (the AI
extractor, or the heuristic one after the AI extractor raised), each
selected field carries the extractor's value when the field is present in
its output and the sentinel `"Unknown"` when it is absent — absent fields
are substituted, never omitted.  When both extractors raise, every
selected field is `"Unknown"`.  The embedding of the per-document
`try`/`except` chain (lines 421-446) is a total function, matching the
code's property that no exception escapes the per-document loop. -/
theorem C4_field_filtering (llm heur : ExtractionAttempt) (selected : List String) :
    ((extract_document_metadata llm heur selected).map Prod.fst = selected) ∧
    (∀ m, llm = .ok m →
      extract_document_metadata llm heur selected =
        selected.map (fun f => (f, ((m : Metadata).lookup f).getD (MVal.str "Unknown")))) ∧
    (∀ m, llm = .raises → heur = .ok m →
      extract_document_metadata llm heur selected =
        selected.map (fun f => (f, ((m : Metadata).lookup f).getD (MVal.str "Unknown")))) ∧
    (llm = .raises → heur = .raises →
      extract_document_metadata llm heur selected =
        selected.map (fun f => (f, MVal.str "Unknown"))) := by
  have hfilter : ∀ m : Metadata, filter_metadata m selected =
      selected.map (fun f => (f, (m.lookup f).getD (MVal.str "Unknown"))) := by
    intro m
    unfold filter_metadata
    refine List.map_congr_left (fun f _ => ?_)
    cases h : m.lookup f <;> simp [h]
  refine ⟨?_, ?_, ?_, ?_⟩
  · show (filter_metadata _ selected).map Prod.fst = selected
    unfold filter_metadata
    rw [List.map_map]
    refine List.map_congr_left (fun f _ => ?_) |>.trans (List.map_id selected)
    simp only [Function.comp_apply]
    cases h : List.lookup f _ <;> simp
  · rintro m rfl
    exact hfilter m
  · rintro m rfl rfl
    exact hfilter m
  · rintro rfl rfl
    show filter_metadata _ selected = _
    rw [hfilter]
    refine List.map_congr_left (fun f _ => ?_)
    cases h : (selected.map (fun f => (f, MVal.str "Unknown"))).lookup f with
    | none => simp [h]
    | some v => simp [h, lookup_const_unknown selected f v h]

/-- C4 witness: with the AI extractor returning only `year`, the selected
field `instructor` — absent from the extractor's output — appears with
value `"Unknown"`; and with both extractors failing, every selected field
is `"Unknown"`. -/
theorem C4_field_filtering_witness :
    extract_document_metadata (.ok [("year", MVal.str "2024")]) .raises
        ["year", "instructor"] =
      [("year", MVal.str "2024"), ("instructor", MVal.str "Unknown")] ∧
    extract_document_metadata .raises .raises ["year", "instructor"] =
      ["year", "instructor"].map (fun f => (f, MVal.str "Unknown")) :=
  ⟨((C4_field_filtering (.ok [("year", MVal.str "2024")]) .raises
      ["year", "instructor"]).2.1 [("year", MVal.str "2024")] rfl).trans (by rfl),
   (C4_field_filtering .raises .raises ["year", "instructor"]).2.2.2 rfl rfl⟩

end Backend

namespace Backend

open SyllabusAnalyzer

/-- C9: a record whose reading-materials list holds exactly two dictionary
items, one with requirement `"required"` and the other with any other
requirement, renders with `required_materials` exactly the required item's
rendering, `optional_materials` exactly the other item's rendering, and
`reading_materials_count = 2` — in either list order. -/
theorem C9_csv_two_materials (A B : Material)
    (hA : requirementOf A = "required")
    (hB : requirementOf B ≠ "required") :
    readingMaterialCols [.dict A, .dict B] =
      { reading_materials_count := 2,
        required_materials := material_str A,
        optional_materials := material_str B,
        reading_materials_list := material_str A ++ "; " ++ material_str B } ∧
    readingMaterialCols [.dict B, .dict A] =
      { reading_materials_count := 2,
        required_materials := material_str A,
        optional_materials := material_str B,
        reading_materials_list := material_str B ++ "; " ++ material_str A } := by
  constructor <;>
    simp [readingMaterialCols, joinSemi, hA, hB]

/-- C9 witness: two concrete materials, one required book and one optional
article. -/
theorem C9_csv_two_materials_witness :
    readingMaterialCols
        [.dict ⟨some "Politics", some "Aristotle", none, some "required",
                some "book", none⟩,
         .dict ⟨some "On Liberty", none, some "Mill", some "suggested",
                some "article", none⟩] =
      { reading_materials_count := 2,
        required_materials := "Politics by Aristotle (book)",
        optional_materials := "On Liberty by Mill (article)",
        reading_materials_list :=
          "Politics by Aristotle (book)" ++ "; " ++ "On Liberty by Mill (article)" } := by
  have h := (C9_csv_two_materials
    ⟨some "Politics", some "Aristotle", none, some "required", some "book", none⟩
    ⟨some "On Liberty", none, some "Mill", some "suggested", some "article", none⟩
    (by decide) (by decide)).1
  rw [h]
  decide

end Backend

namespace Backend

open SyllabusAnalyzer

/-- C3 counterexample: the claim "any further cross-reference request while
one is in flight is rejected" is false.  While `check_primo_background` is
inside its per-record loop it has status `"processing"` and message
`"Checking resources for a.pdf (1/2)"` (line 565) — which contains neither
`"Primo"` nor `"library"` — so a duplicate request passes the keyword guard
and schedules a second background run for the same job. -/
theorem C3_duplicate_not_rejected_counterexample :
    check_primo_resources true "processing" (primoLoopMessage "a.pdf" 0 2)
        true true = (.started, true) ∧
    primoLoopMessage "a.pdf" 0 2 = "Checking resources for a.pdf (1/2)" := by
  constructor <;> decide

/-- C3 amended: a duplicate cross-reference request is rejected with
`already_running` exactly when the job's status is `"processing"` and its
current message contains `"Primo"` or its lowercasing contains
`"library"`; a duplicate request that instead arrives while the in-flight
run displays its per-record message `"Checking resources for ..."`
(whenever that message mentions neither keyword) passes the guard and
schedules a second run. -/
theorem C3_keyword_guard (message : String)
    (rfe rvne : Bool) :
    (∀ status, primo_guard_rejects status message = true →
      check_primo_resources true status message rfe rvne = (.alreadyRunning, false)) ∧
    (primo_guard_rejects "processing" message = true ↔
      (strContainsSub message "Primo" = true ∨
        strContainsSub (pyLower message) "library" = true)) ∧
    (∀ filename i n,
      strContainsSub (primoLoopMessage filename i n) "Primo" = false →
      strContainsSub (pyLower (primoLoopMessage filename i n)) "library" = false →
      check_primo_resources true "processing" (primoLoopMessage filename i n)
          true true = (.started, true)) := by
  refine ⟨?_, ?_, ?_⟩
  · intro status hg
    simp [check_primo_resources, hg]
  · simp [primo_guard_rejects]
  · intro filename i n h1 h2
    simp [check_primo_resources, primo_guard_rejects, h1, h2]

/-- C3 witness: the guard rejects a request that arrives while the message
mentions Primo, and accepts one that arrives during the per-record loop. -/
theorem C3_keyword_guard_witness :
    check_primo_resources true "processing"
        "Starting library resource matching via Primo API..." true true =
      (.alreadyRunning, false) ∧
    check_primo_resources true "processing" (primoLoopMessage "b.pdf" 1 3)
        true true = (.started, true) :=
  ⟨(C3_keyword_guard "Starting library resource matching via Primo API..."
      true true).1 "processing" (by decide),
   (C3_keyword_guard (primoLoopMessage "b.pdf" 1 3) true true).2.2 "b.pdf" 1 3
      (by decide) (by decide)⟩

/-- C8 counterexample: the claim that the "at least one acquired document"
precondition is checked synchronously — with the request rejected and the
job entry unchanged when it fails — is false.  For an existing job whose
download folder exists but is empty, `extract_metadata` still schedules the
background task and overwrites the job entry to `processing`; the
zero-document condition is only discovered asynchronously by
`extract_metadata_background`, which flips the job to `error`. -/
theorem C8_async_empty_folder_counterexample :
    extract_metadata_handler true true ⟨"completed", 100, "done"⟩ =
      (.started, ⟨"processing", 0, "Starting metadata extraction..."⟩, true) ∧
    (⟨"processing", 0, "Starting metadata extraction..."⟩ : JobEntry) ≠
      ⟨"completed", 100, "done"⟩ ∧
    extraction_precheck 0 ⟨"processing", 0, "Starting metadata extraction..."⟩ =
      (⟨"error", 0, "No PDF files found"⟩, false) := by
  refine ⟨by decide, by decide, by decide⟩

/-- C8 amended: `extract_metadata` checks synchronously only that the job
exists and that its download folder exists — failing either check rejects
the request with 404 and leaves the job entry unchanged with nothing
scheduled.  When both hold the request is accepted regardless of how many
documents were acquired: the entry is overwritten to
`processing`/0/"Starting metadata extraction..." and the background task is
scheduled; the at-least-one-document check runs asynchronously in
`extract_metadata_background`, which sets the job to `error` when the
folder holds no PDFs and proceeds otherwise. -/
theorem C8_sync_guards (e : JobEntry) (numPdfs : ℕ) :
    (∀ folderExists, extract_metadata_handler false folderExists e =
      (.notFound, e, false)) ∧
    (extract_metadata_handler true false e = (.notFound, e, false)) ∧
    (extract_metadata_handler true true e =
      (.started, ⟨"processing", 0, "Starting metadata extraction..."⟩, true)) ∧
    (extraction_precheck 0 e =
      ({ e with status := "error", message := "No PDF files found" }, false)) ∧
    (0 < numPdfs → extraction_precheck numPdfs e = (e, true)) := by
  refine ⟨fun fe => by simp [extract_metadata_handler],
    by simp [extract_metadata_handler],
    by simp [extract_metadata_handler],
    by simp [extraction_precheck],
    fun h => by simp [extraction_precheck, Nat.pos_iff_ne_zero.mp h]⟩

/-- C8 witness: the amended guards applied at a concrete entry with three
acquired documents. -/
theorem C8_sync_guards_witness :
    extract_metadata_handler true false ⟨"completed", 100, "done"⟩ =
      (.notFound, ⟨"completed", 100, "done"⟩, false) ∧
    extraction_precheck 3 ⟨"processing", 0, "m"⟩ = (⟨"processing", 0, "m"⟩, true) :=
  ⟨(C8_sync_guards ⟨"completed", 100, "done"⟩ 3).2.1,
   (C8_sync_guards ⟨"processing", 0, "m"⟩ 3).2.2.2.2 (by decide)⟩

end Backend

namespace Backend

/-- Natural floor division: `a * n / n ≤ a`. -/
theorem mul_div_self_le (a n : ℕ) : a * n / n ≤ a := by
  cases n with
  | zero => simp
  | succ m => rw [Nat.mul_div_cancel _ (Nat.succ_pos m)]

/-- Chaining the concatenation of nonempty monotone blocks indexed by
`List.range`. -/
theorem chain_flatMap_range (w : ℕ → List ℕ) (n : ℕ)
    (hne : ∀ i, w i ≠ [])
    (hchain : ∀ i, List.Chain' (· ≤ ·) (w i))
    (hglue : ∀ i, ∀ a ∈ (w i).getLast?, ∀ b ∈ (w (i + 1)).head?, a ≤ b) :
    List.Chain' (· ≤ ·) ((List.range n).flatMap w) := by
  have heq : (List.range n).flatMap w = ((List.range n).map w).flatten := rfl
  have hnil : ([] : List ℕ) ∉ (List.range n).map w := by
    simp only [List.mem_map]
    rintro ⟨i, -, h⟩
    exact hne i h
  rw [heq, List.chain'_flatten hnil]
  constructor
  · intro l hl
    simp only [List.mem_map] at hl
    obtain ⟨i, -, rfl⟩ := hl
    exact hchain i
  · rw [List.chain'_map]
    cases n with
    | zero => simp
    | succ m =>
      rw [List.chain'_range_succ]
      intro i _
      exact hglue i

/-- `int(50 + 40*i/n) = 50 + (120*i)/(3*n)`. -/
theorem acq_div_cast (i n : ℕ) : 40 * i / n = 120 * i / (3 * n) := by
  rw [show (120 : ℕ) * i = 3 * (40 * i) by ring,
    Nat.mul_div_mul_left _ _ (by norm_num)]

/-- The three per-file acquisition writes are nondecreasing. -/
theorem acqFileWrites_chain (n i : ℕ) : List.Chain' (· ≤ ·) (acqFileWrites n i) := by
  unfold acqFileWrites
  refine List.chain'_cons.mpr ⟨?_, List.chain'_cons.mpr ⟨?_, List.chain'_singleton _⟩⟩
  · rw [acq_div_cast]
    exact Nat.add_le_add_left (Nat.div_le_div_right (by omega)) 50
  · rw [acq_div_cast (i + 1) n]
    exact Nat.add_le_add_left (Nat.div_le_div_right (by omega)) 50

/-- Consecutive files' write blocks join monotonically. -/
theorem acqFileWrites_glue (n i : ℕ) :
    ∀ a ∈ (acqFileWrites n i).getLast?, ∀ b ∈ (acqFileWrites n (i + 1)).head?,
      a ≤ b := by
  simp [acqFileWrites]

/-- Every download-loop write is at least 50. -/
theorem acqFlat_mem_ge (n : ℕ) : ∀ x ∈ acqFlat n, 50 ≤ x := by
  intro x hx
  simp only [acqFlat, List.mem_flatMap, List.mem_range] at hx
  obtain ⟨i, -, hx⟩ := hx
  simp only [acqFileWrites, List.mem_cons, List.not_mem_nil, or_false] at hx
  rcases hx with rfl | rfl | rfl <;> exact Nat.le_add_right 50 _

/-- Every download-loop write is at most 90. -/
theorem acqFlat_mem_le (n : ℕ) : ∀ x ∈ acqFlat n, x ≤ 90 := by
  intro x hx
  simp only [acqFlat, List.mem_flatMap, List.mem_range] at hx
  obtain ⟨i, hi, hx⟩ := hx
  have hb : ∀ a : ℕ, a ≤ 40 * n → a / n ≤ 40 := by
    intro a ha
    exact le_trans (Nat.div_le_div_right ha) (mul_div_self_le 40 n)
  have hb3 : ∀ a : ℕ, a ≤ 120 * n → a / (3 * n) ≤ 40 := by
    intro a ha
    refine le_trans (Nat.div_le_div_right ha) ?_
    rw [show (120 : ℕ) * n = 40 * (3 * n) by ring]
    exact mul_div_self_le 40 (3 * n)
  simp only [acqFileWrites, List.mem_cons, List.not_mem_nil, or_false] at hx
  rcases hx with rfl | rfl | rfl
  · have := hb (40 * i) (by omega)
    omega
  · have := hb3 (120 * i + 40) (by omega)
    omega
  · have := hb (40 * (i + 1)) (by omega)
    omega

/-- The download-loop writes are nondecreasing. -/
theorem acqFlat_chain (n : ℕ) : List.Chain' (· ≤ ·) (acqFlat n) :=
  chain_flatMap_range _ n (fun i => by simp [acqFileWrites])
    (acqFileWrites_chain n) (acqFileWrites_glue n)

/-- The download-loop writes followed by the final 100 are nondecreasing. -/
theorem acqTail_chain (n : ℕ) : List.Chain' (· ≤ ·) (acqFlat n ++ [100]) := by
  refine List.chain'_append.mpr ⟨acqFlat_chain n, List.chain'_singleton _, ?_⟩
  intro x hx y hy
  have hx' := acqFlat_mem_le n x (List.mem_of_mem_getLast? hx)
  simp only [List.head?_cons, Option.mem_def, Option.some.injEq] at hy
  omega

end Backend

namespace Backend

/-- The polisci acquisition trace is nondecreasing and ends at 100. -/
theorem acqPolisciWrites_ok (n : ℕ) :
    List.Chain' (· ≤ ·) (acqPolisciWrites n) ∧
    (acqPolisciWrites n).getLast? = some 100 := by
  constructor
  · show List.Chain' (· ≤ ·) ([10, 50, 50, 50] ++ (acqFlat n ++ [100]))
    refine List.chain'_append.mpr ⟨by simp, acqTail_chain n, ?_⟩
    intro x hx y hy
    have hx' : 50 = x := by simpa using hx
    have hy' := List.mem_of_mem_head? hy
    rcases List.mem_append.mp hy' with h | h
    · have := acqFlat_mem_ge n y h
      omega
    · simp only [List.mem_singleton] at h
      omega
  · show ((10 :: 50 :: 50 :: 50 :: acqFlat n) ++ [100]).getLast? = some 100
    exact List.getLast?_concat _

/-- Every arts scan write lies between 20 and 50. -/
theorem artsScan_mem_bounds (p : ℕ) : ∀ x ∈ artsScan p, 20 ≤ x ∧ x ≤ 50 := by
  intro x hx
  simp only [artsScan, List.mem_map, List.mem_range] at hx
  obtain ⟨i, hi, rfl⟩ := hx
  have h1 : 30 * (i + 1) ≤ 30 * p := by omega
  have h2 : 30 * (i + 1) / p ≤ 30 * p / p := Nat.div_le_div_right h1
  have h3 : 30 * p / p ≤ 30 := mul_div_self_le 30 p
  exact ⟨Nat.le_add_right _ _, by omega⟩

/-- The arts scan writes are nondecreasing. -/
theorem artsScan_chain (p : ℕ) : List.Chain' (· ≤ ·) (artsScan p) := by
  unfold artsScan
  rw [List.chain'_map]
  cases p with
  | zero => simp
  | succ m =>
    rw [List.chain'_range_succ]
    intro i _
    exact Nat.add_le_add_left (Nat.div_le_div_right (by omega)) 20

/-- The arts acquisition trace is nondecreasing and ends at 100. -/
theorem acqArtsWrites_ok (p n : ℕ) :
    List.Chain' (· ≤ ·) (acqArtsWrites p n) ∧
    (acqArtsWrites p n).getLast? = some 100 := by
  constructor
  · show List.Chain' (· ≤ ·)
      ([10, 20] ++ (artsScan p ++ 50 :: 50 :: (acqFlat n ++ [100])))
    refine List.chain'_append.mpr ⟨by simp, ?_, ?_⟩
    · refine List.chain'_append.mpr ⟨artsScan_chain p, ?_, ?_⟩
      · refine List.chain'_cons.mpr ⟨le_refl 50, ?_⟩
        refine List.chain'_cons'.mpr ⟨?_, acqTail_chain n⟩
        intro y hy
        have hy' := List.mem_of_mem_head? hy
        rcases List.mem_append.mp hy' with h | h
        · exact acqFlat_mem_ge n y h
        · simp only [List.mem_singleton] at h
          omega
      · intro x hx y hy
        have hx' := (artsScan_mem_bounds p x (List.mem_of_mem_getLast? hx)).2
        simp only [List.head?_cons, Option.mem_def, Option.some.injEq] at hy
        omega
    · intro x hx y hy
      have hx' : 20 = x := by simpa using hx
      have hy' := List.mem_of_mem_head? hy
      rcases List.mem_append.mp hy' with h | h
      · have := (artsScan_mem_bounds p y h).1
        omega
      · simp only [List.mem_cons, List.mem_append, List.mem_singleton,
          List.not_mem_nil, or_false] at h
        rcases h with rfl | rfl | h | rfl
        · omega
        · omega
        · have := acqFlat_mem_ge n y h
          omega
        · omega
  · show ([10, 20] ++ (artsScan p ++ ([50, 50] ++ (acqFlat n ++ [100])))).getLast? =
      some 100
    rw [List.getLast?_append_of_ne_nil _ (by simp),
      List.getLast?_append_of_ne_nil _ (by simp),
      List.getLast?_append_of_ne_nil _ (by simp)]
    exact List.getLast?_concat _

end Backend

namespace Backend

/-- With at most 18 documents, the mid-file +5 bump stays below the next
file's fraction of 90. -/
theorem extract_bump (n i : ℕ) (hn : 0 < n) (h18 : n ≤ 18) :
    90 * i / n + 5 ≤ 90 * (i + 1) / n := by
  have h5 : 5 ≤ 90 / n := (Nat.le_div_iff_mul_le hn).mpr (by omega)
  have hs : 90 * i / n + 90 / n ≤ (90 * i + 90) / n := Nat.add_div_le_add_div _ _ _
  rw [show 90 * (i + 1) = 90 * i + 90 by ring]
  omega

/-- Each per-document write block is nonempty. -/
theorem extractFileWrites_ne_nil (n i : ℕ) (o : ExtractOutcome) :
    extractFileWrites n i o ≠ [] := by
  cases o <;> simp [extractFileWrites]

/-- Each per-document write block starts at that document's 90-fraction. -/
theorem extractFileWrites_head (n i : ℕ) (o : ExtractOutcome) :
    (extractFileWrites n i o).head? = some (90 * i / n) := by
  cases o <;> rfl

/-- Each per-document write block ends at this or the next document's
90-fraction. -/
theorem extractFileWrites_last (n i : ℕ) (o : ExtractOutcome) :
    (extractFileWrites n i o).getLast? = some (90 * i / n) ∨
    (extractFileWrites n i o).getLast? = some (90 * (i + 1) / n) := by
  cases o <;> simp [extractFileWrites]

/-- With at most 18 documents each per-document write block is
nondecreasing. -/
theorem extractFileWrites_chain (n i : ℕ) (hn : 0 < n) (h18 : n ≤ 18)
    (o : ExtractOutcome) : List.Chain' (· ≤ ·) (extractFileWrites n i o) := by
  cases o with
  | skip => exact List.chain'_singleton _
  | errEarly =>
    exact List.chain'_cons.mpr
      ⟨Nat.div_le_div_right (by omega), List.chain'_singleton _⟩
  | processed =>
    exact List.chain'_cons.mpr ⟨Nat.le_add_right _ 5,
      List.chain'_cons.mpr ⟨extract_bump n i hn h18, List.chain'_singleton _⟩⟩
  | errLate =>
    exact List.chain'_cons.mpr ⟨Nat.le_add_right _ 5,
      List.chain'_cons.mpr ⟨extract_bump n i hn h18, List.chain'_singleton _⟩⟩

/-- Every extraction-loop write is at most 95. -/
theorem extractFlat_mem_le (outcomes : List ExtractOutcome) :
    ∀ x ∈ extractFlat outcomes, x ≤ 95 := by
  intro x hx
  simp only [extractFlat, List.mem_flatMap] at hx
  obtain ⟨⟨i, o⟩, hmem, hx⟩ := hx
  have hi : i < outcomes.length := by
    have := (List.of_mem_zip hmem).1
    simpa using this
  have hb : ∀ a : ℕ, a ≤ 90 * outcomes.length → a / outcomes.length ≤ 90 :=
    fun a ha => le_trans (Nat.div_le_div_right ha) (mul_div_self_le 90 _)
  cases o <;>
    simp only [extractFileWrites, List.mem_cons, List.not_mem_nil, or_false] at hx
  · rcases hx with rfl
    have := hb (90 * i) (by omega)
    omega
  · rcases hx with rfl | rfl | rfl
    · have := hb (90 * i) (by omega)
      omega
    · have := hb (90 * i) (by omega)
      omega
    · have := hb (90 * (i + 1)) (by omega)
      omega
  · rcases hx with rfl | rfl
    · have := hb (90 * i) (by omega)
      omega
    · have := hb (90 * (i + 1)) (by omega)
      omega
  · rcases hx with rfl | rfl | rfl
    · have := hb (90 * i) (by omega)
      omega
    · have := hb (90 * i) (by omega)
      omega
    · have := hb (90 * (i + 1)) (by omega)
      omega

/-- With at most 18 documents the extraction-loop writes are
nondecreasing. -/
theorem extractFlat_chain (outcomes : List ExtractOutcome)
    (h18 : outcomes.length ≤ 18) :
    List.Chain' (· ≤ ·) (extractFlat outcomes) := by
  unfold extractFlat
  have heq : ((List.range outcomes.length).zip outcomes).flatMap
      (fun pi => extractFileWrites outcomes.length pi.1 pi.2) =
    (((List.range outcomes.length).zip outcomes).map
      (fun pi => extractFileWrites outcomes.length pi.1 pi.2)).flatten := rfl
  have hnil : ([] : List ℕ) ∉ ((List.range outcomes.length).zip outcomes).map
      (fun pi => extractFileWrites outcomes.length pi.1 pi.2) := by
    simp only [List.mem_map]
    rintro ⟨pi, hmem, h⟩
    exact extractFileWrites_ne_nil _ _ _ h
  rw [heq, List.chain'_flatten hnil]
  have hn : outcomes = [] ∨ 0 < outcomes.length := by
    cases outcomes <;> simp
  constructor
  · intro l hl
    simp only [List.mem_map] at hl
    obtain ⟨pi, hmem, rfl⟩ := hl
    have hpos : 0 < outcomes.length :=
      List.length_pos.mpr (List.ne_nil_of_mem (List.of_mem_zip hmem).2)
    exact extractFileWrites_chain _ _ hpos h18 _
  · rw [List.chain'_map, List.chain'_iff_get]
    intro k hk
    simp only [List.length_zip, List.length_range, Nat.min_self] at hk
    have hk1 : k < outcomes.length := by omega
    have hk2 : k + 1 < outcomes.length := by omega
    have hget : ∀ (j : ℕ) (hj : j < outcomes.length),
        ((List.range outcomes.length).zip outcomes).get
          ⟨j, by simp [List.length_zip]; omega⟩ = (j, outcomes[j]) := by
      intro j hj
      simp [List.get_eq_getElem, List.getElem_zip]
    rw [hget k hk1, hget (k + 1) hk2]
    intro x hx y hy
    rw [extractFileWrites_head] at hy
    simp only [Option.mem_def, Option.some.injEq] at hy
    rcases extractFileWrites_last outcomes.length k outcomes[k] with hl | hl <;>
      rw [hl] at hx <;>
      simp only [Option.mem_def, Option.some.injEq] at hx <;>
      subst hx <;> subst hy
    · exact Nat.div_le_div_right (by omega)
    · exact le_refl _

/-- The extraction trace is nondecreasing (≤ 18 documents) and ends at
100. -/
theorem extractWrites_ok (outcomes : List ExtractOutcome)
    (h18 : outcomes.length ≤ 18) :
    List.Chain' (· ≤ ·) (extractWrites outcomes) ∧
    (extractWrites outcomes).getLast? = some 100 := by
  constructor
  · unfold extractWrites
    refine List.chain'_cons'.mpr ⟨fun y _ => Nat.zero_le y, ?_⟩
    refine List.chain'_append.mpr
      ⟨extractFlat_chain outcomes h18, List.chain'_singleton _, ?_⟩
    intro x hx y hy
    have hx' := extractFlat_mem_le outcomes x (List.mem_of_mem_getLast? hx)
    simp only [List.head?_cons, Option.mem_def, Option.some.injEq] at hy
    omega
  · show ((0 :: extractFlat outcomes) ++ [100]).getLast? = some 100
    exact List.getLast?_concat _

/-- Every cross-reference scan write is at most 90. -/
theorem primoScan_mem_le (n : ℕ) : ∀ x ∈ primoScan n, x ≤ 90 := by
  intro x hx
  simp only [primoScan, List.mem_map, List.mem_range] at hx
  obtain ⟨i, hi, rfl⟩ := hx
  exact le_trans (Nat.div_le_div_right (by omega)) (mul_div_self_le 90 n)

/-- The cross-reference trace is nondecreasing and ends at 100. -/
theorem primoWrites_ok (n : ℕ) :
    List.Chain' (· ≤ ·) (primoWrites n) ∧
    (primoWrites n).getLast? = some 100 := by
  constructor
  · unfold primoWrites
    refine List.chain'_cons'.mpr ⟨fun y _ => Nat.zero_le y, ?_⟩
    refine List.chain'_append.mpr ⟨?_, by simp, ?_⟩
    · unfold primoScan
      rw [List.chain'_map]
      cases n with
      | zero => simp
      | succ m =>
        rw [List.chain'_range_succ]
        intro i _
        exact Nat.div_le_div_right (by omega)
    · intro x hx y hy
      have hx' := primoScan_mem_le n x (List.mem_of_mem_getLast? hx)
      simp only [List.head?_cons, Option.mem_def, Option.some.injEq] at hy
      omega
  · show ([0] ++ (primoScan n ++ ([95] ++ [100]))).getLast? = some 100
    rw [List.getLast?_append_of_ne_nil _ (by simp),
      List.getLast?_append_of_ne_nil _ (by simp),
      List.getLast?_append_of_ne_nil _ (by simp)]
    rfl

end Backend

namespace Backend

/-- C2 amended: within every stage invocation the successive progress
writes are monotonically non-decreasing — unconditionally for the
acquisition and cross-reference stages, and for the extraction stage
provided it processes at most 18 documents — and the final progress write
of a completing stage is exactly 100 at its `completed` transition.  On a
transition to `error`, progress is reset to 0 by the acquisition stage
only; the extraction and cross-reference error handlers leave the progress
value unchanged. -/
theorem C2_progress_amended (run : StageRun)
    (h18 : ∀ outcomes, run = .extraction outcomes → outcomes.length ≤ 18) :
    (List.Chain' (· ≤ ·) (progressWrites run) ∧
      (progressWrites run).getLast? = some 100) ∧
    (∀ (e : JobEntry) (msg : String),
      (acquisitionOnError e msg).status = "error" ∧
      (acquisitionOnError e msg).progress = 0) ∧
    (∀ (e : JobEntry) (msg : String),
      (extractionOnError e msg).status = "error" ∧
      (extractionOnError e msg).progress = e.progress) ∧
    (∀ (e : JobEntry) (msg : String),
      (crossrefOnError e msg).status = "error" ∧
      (crossrefOnError e msg).progress = e.progress) := by
  refine ⟨?_, fun e msg => ⟨rfl, rfl⟩, fun e msg => ⟨rfl, rfl⟩,
    fun e msg => ⟨rfl, rfl⟩⟩
  cases run with
  | acqPolisci n => exact acqPolisciWrites_ok n
  | acqArts p n => exact acqArtsWrites_ok p n
  | extraction outcomes => exact extractWrites_ok outcomes (h18 outcomes rfl)
  | crossref n => exact primoWrites_ok n

/-- C2 witness: concrete stage invocations — an extraction over two
documents and an acquisition over three files. -/
theorem C2_progress_amended_witness :
    List.Chain' (· ≤ ·) (progressWrites (.extraction [.processed, .errEarly])) ∧
    (progressWrites (.acqPolisci 3)).getLast? = some 100 :=
  ⟨(C2_progress_amended (.extraction [.processed, .errEarly])
      (fun o h => by injection h with h'; rw [← h']; decide)).1.1,
   (C2_progress_amended (.acqPolisci 3) (fun o h => by cases h)).1.2⟩

/-- C2 counterexample: the claim as stated is false on the code twice over.
With 20 documents, the extraction stage writes `int((0/20)*90 + 5) = 5`
(line 417) and then `int((1/20)*90) = 4` (line 454), a strictly decreasing
pair; and the extraction stage's error transition (lines 479-481) does not
reset progress to 0 — a job failing at progress 45 stays at 45. -/
theorem C2_progress_counterexample :
    (¬ List.Chain' (· ≤ ·)
      (progressWrites (.extraction (List.replicate 20 .processed)))) ∧
    (extractionOnError ⟨"processing", 45, "Processing"⟩ "boom").status = "error" ∧
    (extractionOnError ⟨"processing", 45, "Processing"⟩ "boom").progress = 45 ∧
    (45 : ℕ) ≠ 0 := by
  refine ⟨?_, rfl, rfl, by decide⟩
  intro h
  rw [List.chain'_iff_get] at h
  have h2 := h 2 (by decide)
  revert h2
  decide

end Backend

namespace SyllabusAnalyzer

/-- Tokens of the split: each is nonempty, whitespace-free, and made of
characters of the input (or of the accumulator seeding the scan). -/
theorem pySplitAux_tokens :
    ∀ (l acc : List Char), (∀ c ∈ acc, isPyWhitespace c = false) →
      ∀ t ∈ pySplitAux l acc,
        t ≠ [] ∧ ∀ c ∈ t, isPyWhitespace c = false ∧ (c ∈ l ∨ c ∈ acc) := by
  intro l
  induction l with
  | nil =>
    intro acc hacc t ht
    rw [pySplitAux] at ht
    split at ht
    · simp at ht
    · next hne =>
      simp only [List.mem_singleton] at ht
      subst ht
      refine ⟨by simpa using hne, fun c hc => ?_⟩
      rw [List.mem_reverse] at hc
      exact ⟨hacc c hc, Or.inr hc⟩
  | cons a rest ih =>
    intro acc hacc t ht
    rw [pySplitAux] at ht
    by_cases hw : isPyWhitespace a
    · rw [if_pos hw] at ht
      have hrec : ∀ t ∈ pySplitAux rest [],
          t ≠ [] ∧ ∀ c ∈ t, isPyWhitespace c = false ∧ (c ∈ a :: rest ∨ c ∈ acc) := by
        intro t' ht'
        obtain ⟨hne, hall⟩ := ih [] (by simp) t' ht'
        refine ⟨hne, fun c hc => ?_⟩
        obtain ⟨hws, hmem⟩ := hall c hc
        rcases hmem with h | h
        · exact ⟨hws, Or.inl (List.mem_cons_of_mem a h)⟩
        · simp at h
      split at ht
      · exact hrec t ht
      · next hne =>
        rcases List.mem_cons.mp ht with rfl | h
        · refine ⟨by simpa using hne, fun c hc => ?_⟩
          rw [List.mem_reverse] at hc
          exact ⟨hacc c hc, Or.inr hc⟩
        · exact hrec t h
    · rw [if_neg hw] at ht
      have hacc' : ∀ c ∈ a :: acc, isPyWhitespace c = false := by
        intro c hc
        rcases List.mem_cons.mp hc with rfl | h
        · simpa using hw
        · exact hacc c h
      obtain ⟨hne, hall⟩ := ih (a :: acc) hacc' t ht
      refine ⟨hne, fun c hc => ?_⟩
      obtain ⟨hws, hmem⟩ := hall c hc
      rcases hmem with h | h
      · exact ⟨hws, Or.inl (List.mem_cons_of_mem a h)⟩
      · rcases List.mem_cons.mp h with rfl | h'
        · exact ⟨hws, Or.inl (List.mem_cons_self _ _)⟩
        · exact ⟨hws, Or.inr h'⟩

/-- Tokens of `pySplit`: nonempty, whitespace-free, drawn from the input. -/
theorem pySplit_tokens (l : List Char) :
    ∀ t ∈ pySplit l, t ≠ [] ∧ ∀ c ∈ t, isPyWhitespace c = false ∧ c ∈ l := by
  intro t ht
  obtain ⟨hne, hall⟩ := pySplitAux_tokens l [] (by simp) t ht
  refine ⟨hne, fun c hc => ?_⟩
  obtain ⟨hws, hmem⟩ := hall c hc
  rcases hmem with h | h
  · exact ⟨hws, h⟩
  · simp at h

/-- Every character of the join is a separator space or a token
character. -/
theorem pyJoinSpace_mem :
    ∀ (ts : List (List Char)) (c : Char), c ∈ pyJoinSpace ts →
      c = ' ' ∨ ∃ t ∈ ts, c ∈ t := by
  intro ts
  induction ts with
  | nil => intro c hc; simp [pyJoinSpace] at hc
  | cons t rest ih =>
    intro c hc
    cases rest with
    | nil =>
      simp only [pyJoinSpace] at hc
      exact Or.inr ⟨t, List.mem_cons_self _ _, hc⟩
    | cons t' rest' =>
      rw [show pyJoinSpace (t :: t' :: rest') =
        t ++ ' ' :: pyJoinSpace (t' :: rest') from rfl] at hc
      rcases List.mem_append.mp hc with h | h
      · exact Or.inr ⟨t, List.mem_cons_self _ _, h⟩
      · rcases List.mem_cons.mp h with rfl | h'
        · exact Or.inl rfl
        · rcases ih c h' with h'' | ⟨u, hu, hcu⟩
          · exact Or.inl h''
          · exact Or.inr ⟨u, List.mem_cons_of_mem _ hu, hcu⟩

/-- The join of a nonempty first token starts with that token's head. -/
theorem pyJoinSpace_head (t : List Char) (ts : List (List Char)) (h : t ≠ []) :
    (pyJoinSpace (t :: ts)).head? = t.head? := by
  cases ts with
  | nil => rfl
  | cons t' rest =>
    rw [show pyJoinSpace (t :: t' :: rest) =
      t ++ ' ' :: pyJoinSpace (t' :: rest) from rfl]
    exact List.head?_append_of_ne_nil _ h

/-- The join of a nonempty first token is nonempty. -/
theorem pyJoinSpace_ne_nil (t : List Char) (ts : List (List Char)) (h : t ≠ []) :
    pyJoinSpace (t :: ts) ≠ [] := by
  intro habs
  have := pyJoinSpace_head t ts h
  rw [habs] at this
  cases t with
  | nil => exact h rfl
  | cons a t' => simp at this

/-- The last character of a join of whitespace-free nonempty tokens is not
whitespace. -/
theorem pyJoinSpace_getLast :
    ∀ (ts : List (List Char)),
      (∀ t ∈ ts, t ≠ [] ∧ ∀ c ∈ t, isPyWhitespace c = false) →
      ∀ x, (pyJoinSpace ts).getLast? = some x → isPyWhitespace x = false := by
  intro ts
  induction ts with
  | nil => intro _ x hx; simp [pyJoinSpace] at hx
  | cons t rest ih =>
    intro h x hx
    cases rest with
    | nil =>
      have hx' : t.getLast? = some x := by simpa [pyJoinSpace] using hx
      have hmem := List.mem_of_mem_getLast? hx'
      exact (h t (List.mem_cons_self _ _)).2 x hmem
    | cons t' rest' =>
      have ht' : t' ≠ [] := (h t' (by simp)).1
      have hJ : pyJoinSpace (t' :: rest') ≠ [] := pyJoinSpace_ne_nil t' rest' ht'
      rw [show pyJoinSpace (t :: t' :: rest') =
        t ++ (' ' :: pyJoinSpace (t' :: rest')) from rfl,
        List.getLast?_append_of_ne_nil _ (by simp),
        show (' ' :: pyJoinSpace (t' :: rest')) =
          [' '] ++ pyJoinSpace (t' :: rest') from rfl,
        List.getLast?_append_of_ne_nil _ hJ] at hx
      exact ih (fun u hu => h u (List.mem_cons_of_mem _ hu)) x hx

/-- A whitespace-free character list never has two adjacent spaces. -/
theorem chain_no_space (t : List Char)
    (h : ∀ c ∈ t, isPyWhitespace c = false) :
    List.Chain' (fun a b => ¬ (a = ' ' ∧ b = ' ')) t := by
  induction t with
  | nil => exact List.chain'_nil
  | cons a rest ih =>
    refine List.chain'_cons'.mpr ⟨fun y _ => fun ⟨ha, _⟩ => ?_,
      ih (fun c hc => h c (List.mem_cons_of_mem a hc))⟩
    have := h a (List.mem_cons_self a rest)
    rw [ha] at this
    simp [isPyWhitespace, pyWhitespaceChars] at this

/-- The join of whitespace-free nonempty tokens never has two adjacent
spaces. -/
theorem pyJoinSpace_chain :
    ∀ (ts : List (List Char)),
      (∀ t ∈ ts, t ≠ [] ∧ ∀ c ∈ t, isPyWhitespace c = false) →
      List.Chain' (fun a b => ¬ (a = ' ' ∧ b = ' ')) (pyJoinSpace ts) := by
  intro ts
  induction ts with
  | nil => exact fun _ => List.chain'_nil
  | cons t rest ih =>
    intro h
    cases rest with
    | nil =>
      exact chain_no_space t (h t (List.mem_cons_self _ _)).2
    | cons t' rest' =>
      rw [show pyJoinSpace (t :: t' :: rest') =
        t ++ ' ' :: pyJoinSpace (t' :: rest') from rfl]
      have ht' : t' ≠ [] := (h t' (by simp)).1
      refine List.chain'_append.mpr
        ⟨chain_no_space t (h t (List.mem_cons_self _ _)).2, ?_, ?_⟩
      · refine List.chain'_cons'.mpr ⟨fun y hy => fun ⟨_, hy'⟩ => ?_,
          ih (fun u hu => h u (List.mem_cons_of_mem _ hu))⟩
        rw [pyJoinSpace_head t' rest' ht'] at hy
        have hmem := List.mem_of_mem_head? hy
        have := (h t' (by simp)).2 y hmem
        rw [hy'] at this
        simp [isPyWhitespace, pyWhitespaceChars] at this
      · intro x hx y _
        rintro ⟨hx', -⟩
        have hmem := List.mem_of_mem_getLast? hx
        have := (h t (List.mem_cons_self _ _)).2 x hmem
        rw [hx'] at this
        simp [isPyWhitespace, pyWhitespaceChars] at this

end SyllabusAnalyzer

namespace PolisciDownloader

open SyllabusAnalyzer

/-- C10 amended: for every input, `sanitize_filename` returns a string with
none of the characters `< > : " / \ | ? *`, no leading whitespace, all
whitespace reduced to single non-adjacent `' '` separators, and length at
most 200; it is a total function.  Unlike the original claim, a single
trailing space is possible: it occurs exactly when the 200-character
truncation cuts the joined string (whose own last character is never
whitespace) right after a separator space. -/
theorem C10_sanitize_amended (s : String) :
    (∀ c ∈ (sanitize_filename s).toList, c ∉ invalidFilenameChars) ∧
    (∀ c ∈ (sanitize_filename s).toList, isPyWhitespace c = true → c = ' ') ∧
    (∀ c, (sanitize_filename s).toList.head? = some c →
      isPyWhitespace c = false) ∧
    List.Chain' (fun a b => ¬ (a = ' ' ∧ b = ' ')) (sanitize_filename s).toList ∧
    (sanitize_filename s).toList.length ≤ 200 ∧
    (∀ c, (sanitize_filename s).toList.getLast? = some c →
      isPyWhitespace c = true →
      200 < (pyJoinSpace (pySplit (s.toList.map
        (fun c => if c ∈ invalidFilenameChars then '_' else c)))).length) := by
  have hL : (sanitize_filename s).toList =
      (pyJoinSpace (pySplit (s.toList.map
        (fun c => if c ∈ invalidFilenameChars then '_' else c)))).take 200 := rfl
  set mapped := s.toList.map (fun c => if c ∈ invalidFilenameChars then '_' else c)
    with hmapped
  set u := pyJoinSpace (pySplit mapped) with hu
  have hmappedInv : ∀ c ∈ mapped, c ∉ invalidFilenameChars := by
    intro c hc
    rw [hmapped] at hc
    simp only [List.mem_map] at hc
    obtain ⟨c0, -, rfl⟩ := hc
    split
    · decide
    · next h => exact h
  have htok := pySplit_tokens mapped
  have humem : ∀ c ∈ u, c = ' ' ∨ (isPyWhitespace c = false ∧ c ∈ mapped) := by
    intro c hc
    rcases pyJoinSpace_mem (pySplit mapped) c hc with h | ⟨t, ht, hct⟩
    · exact Or.inl h
    · exact Or.inr ((htok t ht).2 c hct)
  refine ⟨?_, ?_, ?_, ?_, ?_, ?_⟩
  · intro c hc
    rw [hL] at hc
    rcases humem c (List.take_subset _ _ hc) with rfl | ⟨-, hm⟩
    · decide
    · exact hmappedInv c hm
  · intro c hc hws
    rw [hL] at hc
    rcases humem c (List.take_subset _ _ hc) with rfl | ⟨hws', -⟩
    · rfl
    · rw [hws] at hws'
      cases hws'
  · intro c hc
    rw [hL] at hc
    have hhead : u.head? = some c := by
      rw [← hc]
      cases u with
      | nil => rfl
      | cons a t => rfl
    cases hsplit : pySplit mapped with
    | nil =>
      rw [hu, hsplit] at hhead
      simp [pyJoinSpace] at hhead
    | cons t ts =>
      have ht : t ≠ [] := (htok t (by rw [hsplit]; exact List.mem_cons_self _ _)).1
      rw [hu, hsplit, pyJoinSpace_head t ts ht] at hhead
      have hmem := List.mem_of_mem_head? hhead
      exact ((htok t (by rw [hsplit]; exact List.mem_cons_self _ _)).2 c hmem).1
  · rw [hL]
    exact (pyJoinSpace_chain (pySplit mapped)
      (fun t ht => ⟨(htok t ht).1, fun c hc => ((htok t ht).2 c hc).1⟩)).take 200
  · rw [hL]
    simp
  · intro c hc hws
    by_contra hlen
    push_neg at hlen
    rw [hL, List.take_of_length_le hlen] at hc
    have := pyJoinSpace_getLast (pySplit mapped)
      (fun t ht => ⟨(htok t ht).1, fun c' hc' => ((htok t ht).2 c' hc').1⟩) c hc
    rw [hws] at this
    cases this

/-- C10 witness: on a concrete input with invalid characters and messy
whitespace, the sanitized result is short enough and starts with a
non-whitespace character. -/
theorem C10_sanitize_amended_witness :
    (sanitize_filename "  a<b>c:  d\te ").toList.length ≤ 200 ∧
    isPyWhitespace 'a' = false :=
  ⟨(C10_sanitize_amended "  a<b>c:  d\te ").2.2.2.2.1,
   (C10_sanitize_amended "  a<b>c:  d\te ").2.2.1 'a' (by decide)⟩

/-- C10 counterexample: the claim "no trailing whitespace" is false.  On a
title of 199 letters followed by a space and one more letter, the
whitespace join produces 201 characters and the `[:200]` truncation
(applied after the join) leaves a trailing space. -/
theorem C10_sanitize_counterexample :
    (sanitize_filename
        (String.mk (List.replicate 199 'a' ++ [' ', 'b']))).toList.getLast? =
      some ' ' ∧
    isPyWhitespace ' ' = true := by
  constructor
  · decide
  · decide

end PolisciDownloader

namespace PolisciDownloader

/-- The registry invariant holds initially. -/
theorem registryInv_init (ι : Type) (disk0 : List String) :
    RegistryInv (initState ι disk0) := by
  constructor
  · intro i f h
    simp [initState, heldName] at h
  · intro i j f g hij hi hj
    simp [initState, heldName] at hi

/-- Every interleaving step preserves the registry invariant. -/
theorem registryInv_step {ι : Type} [DecidableEq ι] {s t : SysState ι}
    (hstep : Step s t) (hinv : RegistryInv s) : RegistryInv t := by
  obtain ⟨h1, h2⟩ := hinv
  cases hstep with
  | claim i base f fuel hidle hchoose =>
    have hfresh : f ∉ s.registry := chooseName_not_mem hchoose
    have hcalls : ∀ j : ι, j ≠ i →
        Function.update s.calls i
          (if f ∈ s.disk then CallPhase.doneOk f else CallPhase.claimed f) j =
        s.calls j := fun j hj => Function.update_noteq hj _ _
    have hcalli : heldName (Function.update s.calls i
        (if f ∈ s.disk then CallPhase.doneOk f else CallPhase.claimed f) i) =
        some f := by
      rw [Function.update_same]
      split <;> rfl
    refine ⟨?_, ?_⟩ <;> dsimp only
    · intro j g hg
      by_cases hji : j = i
      · subst hji
        rw [hcalli] at hg
        obtain rfl := Option.some.inj hg
        exact List.mem_cons_self _ _
      · rw [hcalls j hji] at hg
        exact List.mem_cons_of_mem _ (h1 j g hg)
    · intro j k g g' hjk hg hg'
      by_cases hji : j = i
      · subst hji
        rw [hcalli] at hg
        obtain rfl := Option.some.inj hg
        rw [hcalls k (fun h => hjk h.symm)] at hg'
        intro habs
        exact hfresh (habs ▸ h1 k g' hg')
      · rw [hcalls j hji] at hg
        by_cases hki : k = i
        · subst hki
          rw [hcalli] at hg'
          obtain rfl := Option.some.inj hg'
          intro habs
          exact hfresh (habs ▸ h1 j g hg)
        · rw [hcalls k hki] at hg'
          exact h2 j k g g' hjk hg hg'
  | commit i f hcl =>
    have hheld : heldName (s.calls i) = some f := by rw [hcl]; rfl
    refine ⟨?_, ?_⟩ <;> dsimp only
    · intro j g hg
      by_cases hji : j = i
      · subst hji
        rw [Function.update_same] at hg
        obtain rfl : f = g := Option.some.inj hg
        exact h1 _ _ hheld
      · rw [Function.update_noteq hji] at hg
        exact h1 j g hg
    · intro j k g g' hjk hg hg'
      by_cases hji : j = i
      · subst hji
        rw [Function.update_same] at hg
        obtain rfl : f = g := Option.some.inj hg
        by_cases hki : k = j
        · exact absurd hki.symm hjk
        · rw [Function.update_noteq hki] at hg'
          exact h2 _ _ _ _ hjk hheld hg'
      · rw [Function.update_noteq hji] at hg
        by_cases hki : k = i
        · subst hki
          rw [Function.update_same] at hg'
          obtain rfl : f = g' := Option.some.inj hg'
          exact h2 _ _ _ _ hjk hg hheld
        · rw [Function.update_noteq hki] at hg'
          exact h2 j k g g' hjk hg hg'
  | release i f hcl =>
    have hheld : heldName (s.calls i) = some f := by rw [hcl]; rfl
    refine ⟨?_, ?_⟩ <;> dsimp only
    · intro j g hg
      by_cases hji : j = i
      · subst hji
        rw [Function.update_same] at hg
        simp [heldName] at hg
      · rw [Function.update_noteq hji] at hg
        have hgf : g ≠ f := h2 j i g f hji hg hheld
        exact List.mem_erase_of_ne hgf |>.mpr (h1 j g hg)
    · intro j k g g' hjk hg hg'
      by_cases hji : j = i
      · subst hji
        rw [Function.update_same] at hg
        simp [heldName] at hg
      · rw [Function.update_noteq hji] at hg
        by_cases hki : k = i
        · subst hki
          rw [Function.update_same] at hg'
          simp [heldName] at hg'
        · rw [Function.update_noteq hki] at hg'
          exact h2 j k g g' hjk hg hg'
  | failEarly i hidle =>
    refine ⟨?_, ?_⟩ <;> dsimp only
    · intro j g hg
      by_cases hji : j = i
      · subst hji
        rw [Function.update_same] at hg
        simp [heldName] at hg
      · rw [Function.update_noteq hji] at hg
        exact h1 j g hg
    · intro j k g g' hjk hg hg'
      by_cases hji : j = i
      · subst hji
        rw [Function.update_same] at hg
        simp [heldName] at hg
      · rw [Function.update_noteq hji] at hg
        by_cases hki : k = i
        · subst hki
          rw [Function.update_same] at hg'
          simp [heldName] at hg'
        · rw [Function.update_noteq hki] at hg'
          exact h2 j k g g' hjk hg hg'

/-- The registry invariant holds in every reachable state. -/
theorem registryInv_reach {ι : Type} [DecidableEq ι] {disk0 : List String}
    {s : SysState ι} (h : Reach (initState ι disk0) s) : RegistryInv s := by
  induction h with
  | refl => exact registryInv_init ι disk0
  | tail _ hstep ih => exact registryInv_step hstep ih

end PolisciDownloader

namespace PolisciDownloader

/-- C1: under any interleaving of any number of concurrent `download_pdf`
calls of one acquisition run — the claim-and-check sequence being atomic
under the single lock, as in lines 179-197 — no two distinct calls that
both return success committed the same filename. -/
theorem C1_unique_committed {ι : Type} [DecidableEq ι] (disk0 : List String)
    (s : SysState ι) (hreach : Reach (initState ι disk0) s)
    (i j : ι) (f g : String) (hij : i ≠ j)
    (hi : s.calls i = .doneOk f) (hj : s.calls j = .doneOk g) : f ≠ g :=
  (registryInv_reach hreach).2 i j f g hij (by rw [hi]; rfl) (by rw [hj]; rfl)

/-- C1 witness: a concrete two-worker interleaving in which both calls
derive the same base name `a.pdf`; the second claim is collision-suffixed
to `a_1.pdf`, and the two committed filenames are distinct. -/
theorem C1_unique_committed_witness : ("a.pdf" : String) ≠ "a_1.pdf" := by
  have r : Reach (initState Bool []) _ :=
    Relation.ReflTransGen.tail (Relation.ReflTransGen.tail
      (Relation.ReflTransGen.tail (Relation.ReflTransGen.tail
        Relation.ReflTransGen.refl
        (Step.claim _ false "a.pdf" "a.pdf" 1 rfl (by decide)))
        (Step.commit _ false "a.pdf" (by decide)))
        (Step.claim _ true "a.pdf" "a_1.pdf" 2 (by decide) (by decide)))
        (Step.commit _ true "a_1.pdf" (by decide))
  exact C1_unique_committed [] _ r false true "a.pdf" "a_1.pdf" (by decide) (by decide)
    (by decide)

end PolisciDownloader
